import Mathlib

/-!
Shallow embedding of the ELF crash-log parsing engine
(`MDCBR/elf/elf_parser.py`) and verification of its specification.

Strings are modelled as `List Char`.  Python string/regex primitives used by
the source are modelled explicitly below; each definition is a direct
translation of the corresponding Python construct.
-/

namespace CBR

/-- Convert a Lean string literal to the `List Char` representation. -/
def pyStr (s : String) : List Char := s.data

/-- Characters that are frequently needed but awkward as literals are named
via their code points. -/
def spaceChar : Char := Char.ofNat 32

def newlineChar : Char := Char.ofNat 10

def underscoreChar : Char := Char.ofNat 95

def colonChar : Char := Char.ofNat 58

def dashChar : Char := Char.ofNat 45

def barChar : Char := Char.ofNat 124

def dotChar : Char := Char.ofNat 46

def dollarChar : Char := Char.ofNat 36

def caretChar : Char := Char.ofNat 94

/-- Model of Python `str.isspace` / the regex class `\s` (ASCII range). -/
def isPySpace (c : Char) : Bool :=
  c.toNat = 32 || c.toNat = 9 || c.toNat = 10 || c.toNat = 13 ||
  c.toNat = 11 || c.toNat = 12

/-- Model of the regex class `\d` (ASCII digits). -/
def isPyDigit (c : Char) : Bool := 48 ≤ c.toNat && c.toNat ≤ 57

/-- Model of the regex class `\w` (ASCII letters, digits, underscore). -/
def isPyWord (c : Char) : Bool :=
  isPyDigit c || (65 ≤ c.toNat && c.toNat ≤ 90) ||
  (97 ≤ c.toNat && c.toNat ≤ 122) || c.toNat = 95

/-- The regex class `[\w\d\s]` used by the section-header pattern. -/
def isWordOrSpace (c : Char) : Bool := isPyWord c || isPySpace c

/-- Model of Python `str.lower` on the ASCII range. -/
def pyToLower (c : Char) : Char :=
  if 65 ≤ c.toNat && c.toNat ≤ 90 then Char.ofNat (c.toNat + 32) else c

def pyLower (l : List Char) : List Char := l.map pyToLower

/-- Drop trailing characters satisfying `p`. -/
def dropTrailing (p : Char → Bool) (l : List Char) : List Char :=
  (l.reverse.dropWhile p).reverse

/-- Model of Python `str.strip()` (no arguments): trim whitespace from both
ends. -/
def pyStripWs (l : List Char) : List Char :=
  dropTrailing isPySpace (l.dropWhile isPySpace)

/-- Model of Python `str.strip(cs)`: trim any of the characters in `cs` from
both ends. -/
def pyStripChars (cs : List Char) (l : List Char) : List Char :=
  dropTrailing (fun c => cs.contains c) (l.dropWhile (fun c => cs.contains c))

/-- Helper for `replaceWsRuns`: `inRun` records whether the previous character
was whitespace (i.e. whether we are inside a whitespace run that has already
emitted its replacement character). -/
def replaceWsRunsAux (ch : Char) : Bool → List Char → List Char
  | _, [] => []
  | inRun, c :: cs =>
    if isPySpace c then
      (if inRun then [] else [ch]) ++ replaceWsRunsAux ch true cs
    else c :: replaceWsRunsAux ch false cs

/-- Model of `re.sub(r'\s+', ch, s)`, the body of
`ELFLogParser._replace_space_with_char`: every maximal run of whitespace
(leading, internal, or trailing) is replaced by the single character `ch`. -/
def replaceWsRuns (ch : Char) (l : List Char) : List Char :=
  replaceWsRunsAux ch false l

/-- Model of Python `str.split(sep)` for a one-character separator: empty
pieces are kept (so `"".split` gives one empty piece). -/
def splitOnChar (sep : Char) : List Char → List (List Char)
  | [] => [[]]
  | c :: cs =>
    let r := splitOnChar sep cs
    if c = sep then [] :: r
    else
      match r with
      | [] => [[c]]
      | t :: ts => (c :: t) :: ts

/-- Python exceptions that the modelled code can raise. -/
inductive PyErr where
  | sectionNotFound (name : List Char)
  | typeError
  | reError
  | indexError
  deriving DecidableEq, Repr

instance exceptDecEq {ε α : Type} [DecidableEq ε] [DecidableEq α] :
    DecidableEq (Except ε α) := fun x y =>
  match x, y with
  | .ok a, .ok b =>
    if h : a = b then .isTrue (by rw [h])
    else .isFalse (fun hh => by cases hh; exact h rfl)
  | .error a, .error b =>
    if h : a = b then .isTrue (by rw [h])
    else .isFalse (fun hh => by cases hh; exact h rfl)
  | .ok _, .error _ => .isFalse (fun hh => by cases hh)
  | .error _, .ok _ => .isFalse (fun hh => by cases hh)

/-- Patterns (single characters of the illegal-character list) that are
syntactically invalid regular expressions in Python: backslash, star, the two
parentheses, question mark, plus, opening bracket.  `re.sub` raises
`re.error` for these. -/
def reSubErrPats : List Char :=
  [Char.ofNat 92, Char.ofNat 42, Char.ofNat 40, Char.ofNat 41,
   Char.ofNat 63, Char.ofNat 43, Char.ofNat 91]

/-- Model of Python `re.sub(pat, ' ', s)` where `pat` is a single character
taken from `ELFDataTuples.illegal_varible_name_characters` and used
*unescaped* as the pattern (exactly as the source does):

* backslash, star, parentheses, question mark, plus, opening bracket are
  invalid patterns and raise `re.error`;
* a dot matches every character except a newline, so every such character is
  replaced by a space;
* a dollar matches only at the end of the string (and just before a final
  newline), inserting a space there;
* a caret matches only at the start of the string, inserting a space there;
* a bar is an alternation of two empty patterns and matches the empty string
  at every position, interleaving a space at every gap;
* every other character of the list is a literal and is replaced by a
  space. -/
def pyReSubSpace (pat : Char) (s : List Char) : Except PyErr (List Char) :=
  if reSubErrPats.contains pat then .error .reError
  else if pat = dotChar then
    .ok (s.map (fun c => if c = newlineChar then c else spaceChar))
  else if pat = dollarChar then
    .ok (if s.getLast? = some newlineChar then
           s.dropLast ++ [spaceChar, newlineChar, spaceChar]
         else s ++ [spaceChar])
  else if pat = caretChar then .ok (spaceChar :: s)
  else if pat = barChar then
    .ok (spaceChar :: s.flatMap (fun c => [c, spaceChar]))
  else .ok (s.map (fun c => if c = pat then spaceChar else c))

/-- `ELFDataTuples.illegal_varible_name_characters`, in source order. -/
def illegalVariableNameCharacters : List Char :=
  [35, 47, 45, 46, 36, 92, 64, 42, 40, 41, 38, 94, 60, 62, 63, 44, 33, 39,
   126, 96, 91, 93, 123, 125, 124, 43, 61, 58, 59].map Char.ofNat

/-- Model of `ELFDataTuples.remove_illegal_characters`: the list of illegal
characters occurring in the *original* string is computed first (the Python
list comprehension is evaluated before the loop body reassigns `string`),
then `re.sub(c, ' ', .)` is folded over it, and the result is stripped. -/
def removeIllegalCharacters (s : List Char) : Except PyErr (List Char) := do
  let present := illegalVariableNameCharacters.filter (fun c => s.contains c)
  let r ← present.foldlM (fun acc c => pyReSubSpace c acc) s
  pure (pyStripWs r)

/-- Model of the attribute-sanitization composite performed by
`ELFLogParser._parse_general_section` (lines 608-615): strip and lowercase
the raw label, remove illegal characters, replace whitespace runs by
underscores, append an underscore when the result is a reserved name, and
remove illegal characters once more. -/
def sanitizeAttr (reserved : List (List Char)) (label : List Char) :
    Except PyErr (List Char) := do
  let a1 ← removeIllegalCharacters (pyLower (pyStripWs label))
  let a2 := replaceWsRuns underscoreChar a1
  let a3 := if reserved.contains a2 then a2 ++ [underscoreChar] else a2
  removeIllegalCharacters a3

/-! ## Section lookup (`ELFLogParser.get_section`) -/
/-- First-match association-list lookup, modelling Python dictionary access
(all dictionaries built by the parser have distinct keys). -/
def lookupA {α : Type} : List (List Char × α) → List Char → Option α
  | [], _ => none
  | (k, v) :: rest, key => if k = key then some v else lookupA rest key

/-- The canonical form of a section name as computed by `get_section`:
`self._replace_space_with_char(section_name, "_").lower()`. -/
def canonicalName (s : List Char) : List Char :=
  pyLower (replaceWsRuns underscoreChar s)

/-- Model of `ELFLogParser.get_section` over one of the two section
dictionaries: if the requested name is not a key, it is replaced by its
canonical form; if the (possibly replaced) name is a key its value is
returned, otherwise `SectionNotFound` is raised carrying the (possibly
replaced) name. -/
def getSection {α : Type} (data : List (List Char × α)) (name : List Char) :
    Except PyErr α :=
  let name2 := if (lookupA data name).isSome then name else canonicalName name
  match lookupA data name2 with
  | some v => .ok v
  | none => .error (.sectionNotFound name2)

/-! ## The table-delimiter pattern (`ELFLogParser.TABLE_DELIMITER`) -/
/-- Model of `TABLE_DELIMITER.search(line) is not None`.  The pattern is
anchored at the start of the line: any number of bars, then twelve or more
dashes. -/
def isTableDelimiter (l : List Char) : Bool :=
  12 ≤ ((l.dropWhile (fun c => c = barChar)).takeWhile
          (fun c => c = dashChar)).length

/-! ## The section-header pattern (`ELFLogParser.LOG_SECTION_DELIMITER`) -/
/-- Model of `LOG_SECTION_DELIMITER.search(line)`, returning the
`section_name` group when the line matches.  The pattern is a word character,
then one or more word-or-space characters (greedily, necessarily up to the
first colon), then a colon; the trailing `[\r\n]*` can match the empty
string, so nothing is required after the colon. -/
def headerName (l : List Char) : Option (List Char) :=
  match l with
  | [] => none
  | c0 :: rest =>
    if isPyWord c0 then
      let body := rest.takeWhile isWordOrSpace
      if 1 ≤ body.length then
        match rest.dropWhile isWordOrSpace with
        | c :: _ => if c = colonChar then some (c0 :: body) else none
        | [] => none
      else none
    else none

/-! ## The section segmenter (`ELFLogParser._parse_raw_sections`) -/
/-- Python dictionary assignment `d[k] = v`: replace the value in place when
the key exists (a reassigned key keeps its original position), append a new
binding otherwise. -/
def dictInsert {α : Type} : List (List Char × α) → List Char → α →
    List (List Char × α)
  | [], k, v => [(k, v)]
  | (k1, v1) :: rest, k, v =>
    if k1 = k then (k1, v) :: rest else (k1, v1) :: dictInsert rest k v

/-- `d[k].append(x)` for a dictionary of lists: extend the list bound to `k`
(the segmenter only calls this when `k` is present). -/
def appendA : List (List Char × List (List Char)) → List Char → List Char →
    List (List Char × List (List Char))
  | [], _, _ => []
  | (k1, vs) :: rest, k, x =>
    if k1 = k then (k1, vs ++ [x]) :: rest else (k1, vs) :: appendA rest k x

/-- The segmenter state: the sections dictionary and the current section. -/
abbrev SegState := List (List Char × List (List Char)) × Option (List Char)

/-- One step of `_parse_raw_sections`: a header line opens (or resets) its
section and becomes current; any other line is appended, stripped, to the
current section, or discarded when no section is open. -/
def prStep (st : SegState) (line : List Char) : SegState :=
  match headerName line with
  | some n => (dictInsert st.1 n [], some n)
  | none =>
    match st.2 with
    | some n => (appendA st.1 n (pyStripWs line), st.2)
    | none => st

/-- Model of `ELFLogParser._parse_raw_sections`. -/
def parseRawSections (contents : List (List Char)) :
    List (List Char × List (List Char)) :=
  (contents.foldl prStep ([], none)).1

/-! ## The pipe-delimited table parser (`ELFLogParser._parse_table`) -/
/-- A parsed record: the ordered field/value pairs of one namedtuple. -/
abbrev Rec := List (List Char × List Char)

/-- Model of `data_tuple(**dict(zip(fields, vals)))` for namedtuples created
without defaults: `zip` truncates to the shorter list, so extra values are
dropped silently, but when `vals` is shorter than `fields` the constructor is
missing required arguments and raises `TypeError`. -/
def mkTuple (fields : List (List Char)) (vals : List (List Char)) :
    Except PyErr Rec :=
  if vals.length < fields.length then .error .typeError
  else .ok (fields.zip vals)

/-- The interior tokens of a table row:
`[x.strip() for x in line.strip().split('|')][1:-1]`. -/
def interiorParts (l : List Char) : List (List Char) :=
  (((splitOnChar barChar (pyStripWs l)).map pyStripWs).drop 1).dropLast

/-- The field list of the Modules Information section. -/
def modulesFields : List (List Char) :=
  [pyStr "handle", pyStr "name", pyStr "description", pyStr "version",
   pyStr "size", pyStr "modified", pyStr "path"]

/-- The field list of the Processes Information section. -/
def processesFields : List (List Char) :=
  [pyStr "id_", pyStr "name", pyStr "description", pyStr "version",
   pyStr "memory", pyStr "priority", pyStr "threads", pyStr "path"]

/-- The loop of `ELFLogParser._parse_table`: `hdr` is
`header_delimiter_row`.  A line without the column delimiter, or seen before
two lines have been skipped, increments the counter and is discarded; every
other line is split into interior tokens and turned into a record. -/
def parseTableAux (fields : List (List Char)) :
    List (List Char) → Nat → Except PyErr (List Rec)
  | [], _ => .ok []
  | l :: ls, hdr =>
    if barChar ∈ l ∧ 2 ≤ hdr then do
      let r ← mkTuple fields (interiorParts l)
      let rest ← parseTableAux fields ls hdr
      pure (r :: rest)
    else parseTableAux fields ls (hdr + 1)

/-- Model of `ELFLogParser._parse_table` applied to a section's raw lines. -/
def parseTable (fields : List (List Char)) (raws : List (List Char)) :
    Except PyErr (List Rec) :=
  parseTableAux fields raws 0

/-! ## The call-stack composite parser
(`ELFLogParser._parse_call_stack_information_section`) -/
/-- The field list of the Call Stack Information section. -/
def callStackFields : List (List Char) :=
  [pyStr "methods", pyStr "details", pyStr "stack", pyStr "address",
   pyStr "module", pyStr "offset", pyStr "unit", pyStr "classname",
   pyStr "procedure", pyStr "line"]

/-- `line.strip(' |')`: trim spaces and bars from both ends. -/
def stripSpaceBar (l : List Char) : List Char :=
  pyStripChars [spaceChar, barChar] l

/-- The tokens of one stack-table line:
`[elem.strip(' |') for elem in line.split('|') if elem != '']`. -/
def csTokens (l : List Char) : List (List Char) :=
  ((splitOnChar barChar l).filter (fun e => e ≠ [])).map stripSpaceBar

/-- The loop of `_parse_call_stack_information_section`: `cnt` counts the
table-delimiter lines seen so far; while it equals 2 stripped lines are
appended (newline-terminated) to the summary; while it equals exactly 3 each
line becomes one stack record. -/
def parseCallStackAux : List (List Char) → Nat → List Char → List Rec →
    Except PyErr (List Char × List Rec)
  | [], _, summ, stack => .ok (summ, stack)
  | l :: ls, cnt, summ, stack =>
    if isTableDelimiter l then parseCallStackAux ls (cnt + 1) summ stack
    else
      let summ2 := if cnt = 2 then summ ++ stripSpaceBar l ++ [newlineChar]
                   else summ
      if cnt = 3 then
        match mkTuple callStackFields (csTokens l) with
        | .error e => .error e
        | .ok r => parseCallStackAux ls cnt summ2 (stack ++ [r])
      else parseCallStackAux ls cnt summ2 stack

/-- Model of the call-stack parser applied to the section's raw lines. -/
def parseCallStack (raw : List (List Char)) :
    Except PyErr (List Char × List Rec) :=
  parseCallStackAux raw 0 [] []

/-- The non-delimiter lines of `raw` seen while the delimiter counter (which
starts at `c`) equals `k`. -/
def linesWhen (k : Nat) : Nat → List (List Char) → List (List Char)
  | _, [] => []
  | c, l :: ls =>
    if isTableDelimiter l then linesWhen k (c + 1) ls
    else if c = k then l :: linesWhen k c ls
    else linesWhen k c ls

/-- The summary accumulated from a list of summary-phase lines. -/
def csSummaryOf (ls : List (List Char)) : List Char :=
  (ls.map (fun l => stripSpaceBar l ++ [newlineChar])).flatten

/-- A twelve-dash delimiter line. -/
def delim12 : List Char := List.replicate 12 dashChar

/-! ## The key/value data-line pattern (`ELFLogParser.DATA_LINE_PATTERN`) -/
/-- Split a string at its first colon, returning the pieces before and after
it, or nothing when no colon occurs. -/
def splitAtFirstColon : List Char → Option (List Char × List Char)
  | [] => none
  | c :: cs =>
    if c = colonChar then some ([], cs)
    else
      match splitAtFirstColon cs with
      | none => none
      | some (a, b) => some (c :: a, b)

/-- Model of `DATA_LINE_PATTERN.search(line)` returning the `attribute` and
`data` groups.  The pattern is: optional leading whitespace, digits, a dot,
digits, mandatory whitespace, a lazy attribute, optional whitespace, a
colon, optional whitespace, the rest of the line as data.  The lazy
attribute together with the surrounding whitespace classes means: the match
succeeds exactly when a colon occurs after the numeric ordinal, the
attribute is the text up to the first such colon with trailing whitespace
trimmed, and the data is the remainder with leading whitespace trimmed.
(Section lines are produced by `line.strip()` and contain no newline.) -/
def dataLineMatch (l : List Char) : Option (List Char × List Char) :=
  let s0 := l.dropWhile isPySpace
  let ds1 := s0.takeWhile isPyDigit
  if ds1.isEmpty then none
  else
    match s0.drop ds1.length with
    | [] => none
    | c :: s1 =>
      if c = dotChar then
        let ds2 := s1.takeWhile isPyDigit
        if ds2.isEmpty then none
        else
          let s2 := s1.drop ds2.length
          let ws := s2.takeWhile isPySpace
          if ws.isEmpty then none
          else
            let s3 := s2.drop ws.length
            match splitAtFirstColon s3 with
            | none => none
            | some (pre, post) =>
              some (dropTrailing isPySpace pre, post.dropWhile isPySpace)
      else none

/-- Raw-section map: section name (as written in the header) to raw lines. -/
abbrev RawSections := List (List Char × List (List Char))

/-- Model of `data_tuple(**data_dict)` for a namedtuple without defaults:
`TypeError` unless the dictionary's key set is exactly the field set;
otherwise the record lists the fields in schema order. -/
def mkTupleFromDict (fields : List (List Char))
    (d : List (List Char × List Char)) : Except PyErr Rec :=
  if (fields.all (fun f => (lookupA d f).isSome)) &&
      (d.all (fun p => fields.contains p.1)) then
    .ok (fields.map (fun f => (f, (lookupA d f).getD [])))
  else .error .typeError

/-! ## The transposed network parser (`ELFLogParser._parse_network_section`) -/
/-- The field list of the Network section. -/
def networkFields : List (List Char) :=
  [pyStr "ip_address", pyStr "submask", pyStr "gateway", pyStr "dns_1",
   pyStr "dns_2", pyStr "dhcp"]

/-- The value tokens of one network attribute line: the data split on single
spaces, each token stripped, empty tokens and bare-dash placeholders
filtered out. -/
def netTokens (dat : List Char) : List (List Char) :=
  ((splitOnChar spaceChar dat).map pyStripWs).filter
    (fun x => decide (x ≠ [] ∧ x ≠ [dashChar]))

/-- The attribute-collection loop of `_parse_network_section`: builds the
`temp_data` dictionary and records the token count of the *last* matching
line as the number of interfaces. -/
def netCollect (raw : List (List Char)) :
    List (List Char × List (List Char)) × Nat :=
  raw.foldl (fun acc line =>
    match dataLineMatch line with
    | none => acc
    | some (attr, dat) =>
      let name := replaceWsRuns underscoreChar (pyLower attr)
      let results := netTokens dat
      (dictInsert acc.1 name results, results.length)) ([], 0)

/-- The transposition and tuple-construction phase of
`_parse_network_section`: for each interface index, take that index of every
attribute's token list (`IndexError` when absent), then build a namedtuple
from the resulting dictionary. -/
def parseNetworkLines (raw : List (List Char)) : Except PyErr (List Rec) := do
  let td := netCollect raw
  let dicts ← (List.range td.2).mapM (fun t =>
    td.1.mapM (fun p =>
      match p.2[t]? with
      | some v => Except.ok (p.1, v)
      | none => Except.error PyErr.indexError))
  dicts.mapM (fun d => mkTupleFromDict networkFields d)

/-- Model of `ELFLogParser._parse_network_section` (section lookup plus the
line loop). -/
def parseNetworkSection (rawSections : RawSections) :
    Except PyErr (List Rec) := do
  let rd ← getSection rawSections (pyStr "Network")
  parseNetworkLines rd

/-! ## The general key/value parser and the full parse pipeline
(`ELFLogParser._parse_general_section`, `_parse_elf_sections`) -/
/-- Fields of the Application section. -/
def appFields : List (List Char) :=
  [pyStr "start_date", pyStr "name_description", pyStr "version_number",
   pyStr "parameters", pyStr "compilation_date", pyStr "up_time"]

/-- Fields of the Exception section. -/
def excFields : List (List Char) :=
  [pyStr "date", pyStr "address", pyStr "module_name",
   pyStr "module_version", pyStr "type_", pyStr "message", pyStr "id_",
   pyStr "sent"]

/-- Fields of the User section. -/
def userFields : List (List Char) := [pyStr "id_", pyStr "name"]

/-- Fields of the Active Controls section. -/
def acFields : List (List Char) :=
  [pyStr "form_class", pyStr "form_text", pyStr "control_class",
   pyStr "control_text"]

/-- Fields of the Computer section. -/
def compFields : List (List Char) :=
  [pyStr "name", pyStr "total_memory", pyStr "free_memory",
   pyStr "total_disk", pyStr "free_disk", pyStr "system_up_time",
   pyStr "processor", pyStr "display_mode", pyStr "display_dpi",
   pyStr "video_card", pyStr "virtual_machine"]

/-- Fields of the Operating System section. -/
def osFields : List (List Char) :=
  [pyStr "type_", pyStr "build", pyStr "update",
   pyStr "non_unicode_language", pyStr "charset_acp"]

/-- The attribute-dictionary loop of `_parse_general_section`. -/
def buildGeneralDict (reserved : List (List Char))
    (lines : List (List Char)) :
    Except PyErr (List (List Char × List Char)) :=
  lines.foldlM (fun d line =>
    match dataLineMatch line with
    | none => pure d
    | some (attr, dat) => do
        let a ← sanitizeAttr reserved attr
        pure (dictInsert d a (pyStripWs dat))) []

/-- Model of `ELFLogParser._parse_general_section`: an empty field list
short-circuits to an empty record before any section lookup; otherwise the
section's raw lines are stripped, blank lines dropped, matching lines
accumulated into a dictionary, and the namedtuple built from it. -/
def parseGeneralSection (fields reserved : List (List Char))
    (rawSections : RawSections) (name : List Char) : Except PyErr Rec :=
  if fields = [] then .ok []
  else do
    let rd ← getSection rawSections name
    let lines := (rd.map pyStripWs).filter (fun x => decide (x ≠ []))
    let d ← buildGeneralDict reserved lines
    mkTupleFromDict fields d

/-- Model of `_parse_modules_information_section` and
`_parse_processes_information_section`: section lookup plus the table
loop. -/
def parseTableSection (fields : List (List Char)) (rawSections : RawSections)
    (name : List Char) : Except PyErr (List Rec) := do
  let rd ← getSection rawSections name
  parseTable fields rd

/-- Model of `_parse_call_stack_information_section`: section lookup plus
the delimiter-counting loop. -/
def parseCallStackSection (rawSections : RawSections) :
    Except PyErr (List Char × List Rec) := do
  let rd ← getSection rawSections (pyStr "Call Stack Information")
  parseCallStack rd

/-- The parsing strategy registered for one section. -/
inductive SecParser where
  | general (fields reserved : List (List Char))
  | table (fields : List (List Char))
  | network
  | callstack
  deriving DecidableEq, Repr

/-- A parsed section value: one record, a record list, or the call-stack
composite. -/
inductive SecVal where
  | rec1 (r : Rec)
  | recs (rs : List Rec)
  | cs (summary : List Char) (stack : List Rec)
  deriving DecidableEq, Repr

/-- The section registry, in the iteration order of `_parse_elf_sections`
(the `ELFLogSections` dataclass field order), each section paired with its
parsing strategy and schema. -/
def registry : List (List Char × SecParser) :=
  [(pyStr "Application", .general appFields []),
   (pyStr "Exception", .general excFields [pyStr "type", pyStr "id"]),
   (pyStr "User", .general userFields [pyStr "id"]),
   (pyStr "Active Controls", .general acFields []),
   (pyStr "Computer", .general compFields []),
   (pyStr "Operating System", .general osFields [pyStr "type"]),
   (pyStr "Network", .network),
   (pyStr "Call Stack Information", .callstack),
   (pyStr "Modules Information", .table modulesFields),
   (pyStr "Processes Information", .table processesFields),
   (pyStr "Assembler Information", .general [] []),
   (pyStr "Registers", .general [] [])]

/-- The field list a registry entry's parser zips values against. -/
def secFieldsOf : List Char × SecParser → List (List Char)
  | (_, .general fields _) => fields
  | (_, .table fields) => fields
  | (_, .network) => networkFields
  | (_, .callstack) => callStackFields

/-- Dispatch one registry entry to its section parser. -/
def runSecParser (raw : RawSections) (en : List Char × SecParser) :
    Except PyErr SecVal :=
  match en with
  | (name, .general fields reserved) =>
    (parseGeneralSection fields reserved raw name).map SecVal.rec1
  | (name, .table fields) => (parseTableSection fields raw name).map SecVal.recs
  | (_, .network) => (parseNetworkSection raw).map SecVal.recs
  | (_, .callstack) =>
    (parseCallStackSection raw).map (fun p => SecVal.cs p.1 p.2)

/-- One step of `_parse_elf_sections`: run the entry's parser and store the
result under the canonicalized section name. -/
def elfStep (raw : RawSections) (acc : List (List Char × SecVal))
    (en : List Char × SecParser) : Except PyErr (List (List Char × SecVal)) := do
  let v ← runSecParser raw en
  pure (dictInsert acc (canonicalName en.1) v)

/-- Model of `_parse_elf_sections` as invoked by the constructor: every
registered section is parsed, in registry order; the first exception
propagates out. -/
def parseElfSections (raw : RawSections) :
    Except PyErr (List (List Char × SecVal)) :=
  registry.foldlM (elfStep raw) []

/-! ## Theorems -/

/-- Sanity example from the specification: the label given there with a
reserved-name set containing its sanitized form gains a trailing
underscore. -/
theorem sanitizeAttr_thread_id_example :
    sanitizeAttr [pyStr "thread_id"] (pyStr "Thread Id #") =
      .ok (pyStr "thread_id_") := by decide

/-- C1: the specification claims that `sanitize` replaces each character of
the illegal-character set occurring in the label with a single space (never
deleting it), then trims, lowercases, joins with underscores and re-strips,
so that the label given below would sanitize to a three-character
underscore-joined identifier.  In the code the illegal character is used as
an *unescaped regular-expression pattern*: a dot matches every character, so
sanitizing this label replaces every character with a space and the final
strip leaves the empty identifier, contradicting the documented
replace-with-space behaviour. -/
theorem sanitizeAttr_dot_label_wiped :
    sanitizeAttr [] (pyStr "a.b") = .ok [] ∧ pyStr "a_b" ≠ [] := by
  constructor
  · rfl
  · decide

/-- C9: the specification claims `sanitize` is idempotent on its own output.
Because a bar in the illegal-character list is used as an unescaped
regular-expression pattern (an alternation of two empty patterns, matching at
every position), each pass over a label containing a bar inserts fresh
spaces, so re-sanitizing an already-sanitized label changes it again. -/
theorem sanitizeAttr_not_idempotent :
    sanitizeAttr [] (pyStr "a|b") = .ok (pyStr "a _ | _ b") ∧
    sanitizeAttr [] (pyStr "a _ | _ b") = .ok (pyStr "a _ _ _ | _ _ _ b") ∧
    pyStr "a _ _ _ | _ _ _ b" ≠ pyStr "a _ | _ b" := by
  refine ⟨by rfl, by rfl, by decide⟩

/-- When a requested name is absent in both its literal and its canonical
form, `get_section` raises `SectionNotFound` carrying the canonical form. -/
theorem getSection_absent {α : Type} (data : List (List Char × α))
    (name : List Char) (h1 : lookupA data name = none)
    (h2 : lookupA data (canonicalName name) = none) :
    getSection data name = .error (.sectionNotFound (canonicalName name)) := by
  unfold getSection
  rw [h1]
  simp only [Option.isSome_none, Bool.false_eq_true, if_false]
  rw [h2]

/-- C3 counterexample: the specification claims the `SectionNotFound`
condition carries the originally requested name, exactly as supplied.
Requesting the two-word capitalized name below against an empty section map
raises `SectionNotFound` carrying the lowercased underscore-joined form, not
the original. -/
theorem getSection_error_not_original :
    getSection ([] : List (List Char × List (List Char))) (pyStr "Foo Bar") =
      .error (.sectionNotFound (pyStr "foo_bar")) ∧
    pyStr "foo_bar" ≠ pyStr "Foo Bar" := by
  refine ⟨by rfl, by decide⟩

/-- C3 (amended): a lookup that fails in both the literal and the canonical
form raises `SectionNotFound` carrying the *canonicalized* requested name
(lowercased, whitespace runs replaced by underscores). -/
theorem getSection_absent_carries_canonical {α : Type}
    (data : List (List Char × α)) (name : List Char)
    (h1 : lookupA data name = none)
    (h2 : lookupA data (canonicalName name) = none) :
    getSection data name = .error (.sectionNotFound (canonicalName name)) :=
  getSection_absent data name h1 h2

/-- Witness for `getSection_absent_carries_canonical` at a concrete input. -/
theorem getSection_absent_carries_canonical_witness :
    getSection ([] : List (List Char × Nat)) (pyStr "No Such Section") =
      .error (.sectionNotFound (canonicalName (pyStr "No Such Section"))) :=
  getSection_absent_carries_canonical [] (pyStr "No Such Section") rfl rfl

/-! ## List helper lemmas -/
theorem takeWhile_append_all {α : Type} (p : α → Bool) (xs ys : List α)
    (h : ∀ x ∈ xs, p x = true) :
    (xs ++ ys).takeWhile p = xs ++ ys.takeWhile p := by
  induction xs with
  | nil => simp
  | cons a as ih =>
    simp only [List.cons_append, List.takeWhile_cons]
    rw [h a (by simp)]
    simp only [if_true, List.cons.injEq, true_and]
    exact ih (fun x hx => h x (by simp [hx]))

theorem dropWhile_append_all {α : Type} (p : α → Bool) (xs ys : List α)
    (h : ∀ x ∈ xs, p x = true) :
    (xs ++ ys).dropWhile p = ys.dropWhile p := by
  induction xs with
  | nil => simp
  | cons a as ih =>
    simp only [List.cons_append, List.dropWhile_cons]
    rw [h a (by simp)]
    simp only [if_true]
    exact ih (fun x hx => h x (by simp [hx]))

theorem dropWhile_cons_neg {α : Type} (p : α → Bool) (x : α) (xs : List α)
    (h : p x = false) : (x :: xs).dropWhile p = x :: xs := by
  simp [List.dropWhile_cons, h]

/-- C5 counterexample: the specification claims a line is a table delimiter
exactly when its leading run has 20 or more dash characters, so a line of
twelve dashes would not be one.  The pattern in the code requires only 12. -/
theorem tableDelimiter_twelve_dashes :
    isTableDelimiter (List.replicate 12 dashChar) = true ∧
    (List.replicate 12 dashChar).length < 20 := by decide

/-- C5 (amended): a raw line is counted as a table-delimiter line exactly
when it starts with a (possibly empty) run of bars followed by a run of at
least 12 dashes. -/
theorem isTableDelimiter_iff (l : List Char) :
    isTableDelimiter l = true ↔
    ∃ k m r, l = List.replicate k barChar ++ (List.replicate m dashChar ++ r) ∧
      12 ≤ m := by
  constructor
  · intro h
    have hd : isTableDelimiter l = true := h
    unfold isTableDelimiter at hd
    set rest := l.dropWhile (fun c => c = barChar) with hrest
    set pipes := l.takeWhile (fun c => c = barChar) with hpipes
    set dashes := rest.takeWhile (fun c => c = dashChar) with hdashes
    refine ⟨pipes.length, dashes.length, rest.dropWhile (fun c => c = dashChar),
      ?_, by simpa using hd⟩
    have h1 : pipes = List.replicate pipes.length barChar := by
      apply List.eq_replicate_of_mem
      intro b hb
      have := List.mem_takeWhile_imp hb
      simpa using this
    have h2 : dashes = List.replicate dashes.length dashChar := by
      apply List.eq_replicate_of_mem
      intro b hb
      have := List.mem_takeWhile_imp hb
      simpa using this
    have e2 : dashes ++ rest.dropWhile (fun c => c = dashChar) = rest := by
      rw [hdashes]
      exact List.takeWhile_append_dropWhile _ _
    have e1 : pipes ++ rest = l := by
      rw [hpipes, hrest]
      exact List.takeWhile_append_dropWhile _ _
    rw [← h1, ← h2, e2, e1]
  · rintro ⟨k, m, r, rfl, hm⟩
    obtain ⟨m1, rfl⟩ : ∃ m1, m = m1 + 1 := ⟨m - 1, by omega⟩
    unfold isTableDelimiter
    rw [dropWhile_append_all]
    · rw [List.replicate_succ, List.cons_append,
        dropWhile_cons_neg _ _ _ (by decide), ← List.cons_append,
        ← List.replicate_succ,
        takeWhile_append_all _ _ _ (fun x hx => by
          have := List.eq_of_mem_replicate hx
          simp [this])]
      simp only [List.length_append, List.length_replicate, decide_eq_true_eq]
      omega
    · intro x hx
      have := List.eq_of_mem_replicate hx
      simp [this]

/-- C6 counterexample: the specification claims a line is a section header
exactly when it is word/space characters followed by a colon at end of line,
so a single character before the colon suffices and content after the colon
disqualifies.  The code requires at least two characters before the colon
and permits arbitrary content after it. -/
theorem headerName_counterexample :
    headerName (pyStr "A:") = none ∧
    headerName (pyStr "Name: value") = some (pyStr "Name") := by
  refine ⟨by rfl, by rfl⟩

/-- C6 (amended): a line is treated as a section header exactly when it
starts with a word character followed by at least one word-or-space
character and then a colon; anything (including further content) may follow
the colon.  The captured name is everything before that colon. -/
theorem headerName_isSome_iff (l : List Char) :
    (headerName l).isSome = true ↔
    ∃ c0 body r, l = c0 :: (body ++ colonChar :: r) ∧ isPyWord c0 = true ∧
      body ≠ [] ∧ ∀ c ∈ body, isWordOrSpace c = true := by
  constructor
  · intro h
    match l with
    | [] => simp [headerName] at h
    | c0 :: rest =>
      by_cases hw : isPyWord c0
      · set body := rest.takeWhile isWordOrSpace with hbody
        by_cases hlen : 1 ≤ body.length
        · match hdw : rest.dropWhile isWordOrSpace with
          | [] =>
            exfalso
            simp [headerName, hw, ← hbody, hlen, hdw] at h
          | c :: t =>
            by_cases hc : c = colonChar
            · subst hc
              refine ⟨c0, body, t, ?_, by simp [hw], ?_, ?_⟩
              · have : body ++ rest.dropWhile isWordOrSpace = rest := by
                  rw [hbody, List.takeWhile_append_dropWhile]
                rw [← this, hdw]
              · intro hb
                rw [hb] at hlen
                simp at hlen
              · intro c hc
                have := List.mem_takeWhile_imp (hbody ▸ hc)
                exact this
            · exfalso
              simp [headerName, hw, ← hbody, hlen, hdw, hc] at h
        · exfalso
          simp [headerName, hw, ← hbody, hlen] at h
      · exfalso
        simp [headerName, hw] at h
  · rintro ⟨c0, body, r, rfl, hw, hne, hmem⟩
    have hcolon : isWordOrSpace colonChar = false := by decide
    have htw : (body ++ colonChar :: r).takeWhile isWordOrSpace = body := by
      rw [takeWhile_append_all _ _ _ hmem]
      simp [List.takeWhile_cons, hcolon]
    have hdw : (body ++ colonChar :: r).dropWhile isWordOrSpace =
        colonChar :: r := by
      rw [dropWhile_append_all _ _ _ hmem]
      exact dropWhile_cons_neg isWordOrSpace colonChar r hcolon
    have hlen : 1 ≤ body.length := by
      cases body with
      | nil => exact absurd rfl hne
      | cons a as => simp
    simp [headerName, hw, htw, hdw, hlen]

/-- C7 counterexample: the specification claims segmentation trims only
trailing whitespace and does not alter leading whitespace of any line.  The
segmenter strips both ends, so an indented body line loses its leading
spaces. -/
theorem parseRawSections_strips_leading :
    parseRawSections [pyStr "AB:", pyStr "  x"] = [(pyStr "AB", [pyStr "x"])] ∧
    pyStr "x" ≠ pyStr "  x" := by
  refine ⟨by rfl, by decide⟩

theorem lookupA_dictInsert_self {α : Type} (d : List (List Char × α))
    (k : List Char) (v : α) : lookupA (dictInsert d k v) k = some v := by
  induction d with
  | nil => simp [dictInsert, lookupA]
  | cons p rest ih =>
    by_cases h : p.1 = k
    · simp [dictInsert, h, lookupA]
    · simp [dictInsert, h, lookupA, ih]

theorem lookupA_dictInsert_ne {α : Type} (d : List (List Char × α))
    (k k2 : List Char) (v : α) (h : k2 ≠ k) :
    lookupA (dictInsert d k v) k2 = lookupA d k2 := by
  have hkk : ¬ k = k2 := fun hh => h hh.symm
  induction d with
  | nil => simp [dictInsert, lookupA, hkk]
  | cons p rest ih =>
    obtain ⟨k1, v1⟩ := p
    by_cases h1 : k1 = k
    · subst h1
      simp [dictInsert, lookupA, hkk]
    · by_cases h2 : k1 = k2
      · simp [dictInsert, h1, lookupA, h2, h]
      · simp [dictInsert, h1, lookupA, h2, ih]

theorem lookupA_appendA_self (d : List (List Char × List (List Char)))
    (k : List Char) (x : List Char) :
    lookupA (appendA d k x) k = (lookupA d k).map (fun vs => vs ++ [x]) := by
  induction d with
  | nil => simp [appendA, lookupA]
  | cons p rest ih =>
    by_cases h : p.1 = k
    · simp [appendA, h, lookupA]
    · simp [appendA, h, lookupA, ih]

theorem lookupA_appendA_ne (d : List (List Char × List (List Char)))
    (k k2 : List Char) (x : List Char) (h : k2 ≠ k) :
    lookupA (appendA d k x) k2 = lookupA d k2 := by
  have hkk : ¬ k = k2 := fun hh => h hh.symm
  induction d with
  | nil => simp [appendA, lookupA]
  | cons p rest ih =>
    obtain ⟨k1, vs⟩ := p
    by_cases h1 : k1 = k
    · subst h1
      simp [appendA, lookupA, hkk]
    · by_cases h2 : k1 = k2
      · simp [appendA, h1, lookupA, h2, h]
      · simp [appendA, h1, lookupA, h2, ih]

/-- Folding the segmenter over a block of non-header lines appends their
stripped forms to the current section. -/
theorem foldl_prStep_body (body : List (List Char))
    (hb : ∀ l ∈ body, headerName l = none) :
    ∀ (d : List (List Char × List (List Char))) (n : List Char),
    body.foldl prStep (d, some n) =
      (body.foldl (fun acc l => appendA acc n (pyStripWs l)) d, some n) := by
  induction body with
  | nil => intro d n; simp
  | cons l ls ih =>
    intro d n
    have h1 : headerName l = none := hb l (by simp)
    simp only [List.foldl_cons, prStep, h1]
    exact ih (fun x hx => hb x (by simp [hx])) _ n

theorem lookupA_foldl_appendA (n : List Char) (xs : List (List Char)) :
    ∀ d, lookupA (xs.foldl (fun acc l => appendA acc n (pyStripWs l)) d) n =
      (lookupA d n).map (fun vs => vs ++ xs.map pyStripWs) := by
  induction xs with
  | nil =>
    intro d
    simp only [List.foldl_nil, List.map_nil]
    cases h : lookupA d n <;> simp [h]
  | cons x rest ih =>
    intro d
    simp only [List.foldl_cons, ih, lookupA_appendA_self, List.map_cons]
    cases h : lookupA d n <;> simp [h]

/-- After the segmenter has moved on to a different current section, folding
further lines that never re-open section `n` leaves `n`'s entry unchanged. -/
theorem lookupA_foldl_prStep_frozen (n : List Char) (ls : List (List Char))
    (hn : ∀ l ∈ ls, headerName l ≠ some n) :
    ∀ (d : List (List Char × List (List Char))) (cur : Option (List Char)),
    cur ≠ some n →
    lookupA (ls.foldl prStep (d, cur)).1 n = lookupA d n := by
  induction ls with
  | nil => intro d cur _; simp
  | cons l ls ih =>
    intro d cur hcur
    simp only [List.foldl_cons]
    match hh : headerName l with
    | some m =>
      have hm : m ≠ n := by
        intro he
        exact hn l (by simp) (he ▸ hh)
      rw [show prStep (d, cur) l = (dictInsert d m [], some m) by
        simp [prStep, hh]]
      rw [ih (fun x hx => hn x (by simp [hx])) _ _ (by simp [hm])]
      exact lookupA_dictInsert_ne d m n [] hm.symm
    | none =>
      match cur with
      | some k =>
        have hk : k ≠ n := fun he => hcur (by rw [he])
        rw [show prStep (d, some k) l = (appendA d k (pyStripWs l), some k) by
          simp [prStep, hh]]
        rw [ih (fun x hx => hn x (by simp [hx])) _ _ hcur]
        exact lookupA_appendA_ne d k n (pyStripWs l) hk.symm
      | none =>
        rw [show prStep (d, none) l = (d, none) by simp [prStep, hh]]
        exact ih (fun x hx => hn x (by simp [hx])) d none hcur

/-- C7 (amended): for an input decomposed as an arbitrary prefix, a header
line for section `n`, the section body (no header lines), and a remainder
that is either empty or starts with some other section's header and never
re-opens `n`, the segmenter maps `n` to exactly the body lines, each trimmed
of leading *and* trailing whitespace, in order.  (The specification's
claim of trailing-only trimming fails; both ends are trimmed.) -/
theorem parseRawSections_section_body (pre : List (List Char))
    (hline : List Char) (body rest : List (List Char)) (n : List Char)
    (hh : headerName hline = some n)
    (hb : ∀ l ∈ body, headerName l = none)
    (hr : ∀ l ∈ rest, headerName l ≠ some n)
    (hrh : rest = [] ∨ ∃ r0 rs m, rest = r0 :: rs ∧ headerName r0 = some m) :
    lookupA (parseRawSections (pre ++ hline :: (body ++ rest))) n =
      some (body.map pyStripWs) := by
  unfold parseRawSections
  rw [List.foldl_append]
  set st0 : SegState := pre.foldl prStep ([], none) with hst0
  rw [List.foldl_cons]
  rw [show prStep st0 hline = (dictInsert st0.1 n [], some n) by
    simp [prStep, hh]]
  rw [List.foldl_append]
  rw [foldl_prStep_body body hb]
  set dmid := body.foldl (fun acc l => appendA acc n (pyStripWs l))
    (dictInsert st0.1 n []) with hdmid
  have hmid : lookupA dmid n = some (body.map pyStripWs) := by
    rw [hdmid, lookupA_foldl_appendA, lookupA_dictInsert_self]
    simp
  rcases hrh with hre | ⟨r0, rs, m, hre, hr0⟩
  · subst hre
    simpa using hmid
  · subst hre
    have hm : m ≠ n := by
      intro he
      exact hr r0 (by simp) (he ▸ hr0)
    rw [List.foldl_cons]
    rw [show prStep (dmid, some n) r0 = (dictInsert dmid m [], some m) by
      simp [prStep, hr0]]
    rw [lookupA_foldl_prStep_frozen n rs
      (fun x hx => hr x (by simp [hx])) _ _ (by simp [hm])]
    rw [lookupA_dictInsert_ne dmid m n [] hm.symm]
    exact hmid

/-- Witness for `parseRawSections_section_body` at a concrete input: a
two-section log. -/
theorem parseRawSections_section_body_witness :
    lookupA (parseRawSections ([pyStr "Irrelevant"] ++ pyStr "User:" ::
        ([pyStr "  1.1 Id : joe", pyStr "trailing  "] ++
          [pyStr "Computer:", pyStr "  1.1 Name : box"]))) (pyStr "User") =
      some ([pyStr "  1.1 Id : joe", pyStr "trailing  "].map pyStripWs) :=
  parseRawSections_section_body [pyStr "Irrelevant"] (pyStr "User:")
    [pyStr "  1.1 Id : joe", pyStr "trailing  "]
    [pyStr "Computer:", pyStr "  1.1 Name : box"] (pyStr "User")
    (by rfl) (by decide) (by decide)
    (Or.inr ⟨pyStr "Computer:", [pyStr "  1.1 Name : box"], pyStr "Computer",
      rfl, by rfl⟩)

/-- C4 counterexample: the specification claims a data row with fewer
interior tokens than schema fields still yields a Record with the missing
trailing fields absent.  The Modules schema has seven fields; a data row
with two interior tokens makes the namedtuple constructor raise `TypeError`,
so the table parse fails instead of producing a Record. -/
theorem parseTable_short_row_raises :
    parseTable modulesFields
        [pyStr "title", pyStr "header", pyStr "| a | b |"] =
      .error .typeError := by rfl

/-- C4 (amended): a data row (a line containing the column delimiter, seen
after the two positional skips) with at least as many interior tokens as the
schema has fields yields the Record zipping the fields with the tokens, the
extra tokens silently dropped; a row with fewer interior tokens than fields
raises `TypeError` instead of yielding a partial Record. -/
theorem parseTableAux_row (fields : List (List Char)) (l : List Char)
    (hdr : Nat) (hhdr : 2 ≤ hdr) (hbar : barChar ∈ l) :
    parseTableAux fields [l] hdr =
      if fields.length ≤ (interiorParts l).length then
        .ok [fields.zip (interiorParts l)]
      else .error .typeError := by
  rw [show parseTableAux fields [l] hdr =
      (do
        let r ← mkTuple fields (interiorParts l)
        let rest ← parseTableAux fields [] hdr
        pure (r :: rest)) by
    unfold parseTableAux
    rw [if_pos ⟨hbar, hhdr⟩]
    rfl]
  unfold mkTuple
  by_cases hlen : (interiorParts l).length < fields.length
  · rw [if_pos hlen, if_neg (by omega)]
    rfl
  · rw [if_neg hlen, if_pos (by omega)]
    rfl

/-- Witness for `parseTableAux_row`: a row with three interior tokens against
a two-field schema yields one Record with the third token dropped. -/
theorem parseTableAux_row_witness :
    parseTableAux [pyStr "f1", pyStr "f2"] [pyStr "| a | b | c |"] 2 =
      if [pyStr "f1", pyStr "f2"].length ≤
          (interiorParts (pyStr "| a | b | c |")).length then
        .ok [[pyStr "f1", pyStr "f2"].zip
              (interiorParts (pyStr "| a | b | c |"))]
      else .error .typeError :=
  parseTableAux_row [pyStr "f1", pyStr "f2"] (pyStr "| a | b | c |") 2
    (by decide) (by decide)

/-- C2 counterexample: the specification claims a stack-frame Record is
built from every non-delimiter line seen while the delimiter counter is 3
*or more*.  In the code the comparison is an equality, so a ten-token table
line that follows a fourth delimiter line is silently discarded and the
frame list stays empty. -/
theorem parseCallStack_after_fourth_delimiter :
    parseCallStack [delim12, delim12, pyStr "sum line", delim12, delim12,
        pyStr "a|b|c|d|e|f|g|h|i|j"] =
      .ok (pyStr "sum line" ++ [newlineChar], []) ∧
    isTableDelimiter (pyStr "a|b|c|d|e|f|g|h|i|j") = false ∧
    (csTokens (pyStr "a|b|c|d|e|f|g|h|i|j")).length = 10 := by
  refine ⟨by rfl, by decide, by decide⟩

theorem linesWhen_cons (k c : Nat) (l : List Char) (ls : List (List Char)) :
    linesWhen k c (l :: ls) =
      if isTableDelimiter l then linesWhen k (c + 1) ls
      else if c = k then l :: linesWhen k c ls else linesWhen k c ls := by
  simp only [linesWhen]

theorem parseCallStackAux_cons (l : List Char) (ls : List (List Char))
    (cnt : Nat) (summ : List Char) (stack : List Rec) :
    parseCallStackAux (l :: ls) cnt summ stack =
      if isTableDelimiter l then parseCallStackAux ls (cnt + 1) summ stack
      else
        let summ2 := if cnt = 2 then summ ++ stripSpaceBar l ++ [newlineChar]
                     else summ
        if cnt = 3 then
          match mkTuple callStackFields (csTokens l) with
          | .error e => .error e
          | .ok r => parseCallStackAux ls cnt summ2 (stack ++ [r])
        else parseCallStackAux ls cnt summ2 stack := by
  simp only [parseCallStackAux]

theorem parseCallStackAux_spec (raw : List (List Char)) :
    ∀ (cnt : Nat) (summ : List Char) (stack : List Rec),
    (∀ l ∈ linesWhen 3 cnt raw,
        callStackFields.length ≤ (csTokens l).length) →
    parseCallStackAux raw cnt summ stack =
      .ok (summ ++ csSummaryOf (linesWhen 2 cnt raw),
           stack ++ (linesWhen 3 cnt raw).map
             (fun l => callStackFields.zip (csTokens l))) := by
  induction raw with
  | nil =>
    intro cnt summ stack _
    simp [parseCallStackAux, linesWhen, csSummaryOf]
  | cons l ls ih =>
    intro cnt summ stack h
    by_cases hd : isTableDelimiter l
    · rw [parseCallStackAux_cons, if_pos hd, linesWhen_cons 2 cnt l ls,
        if_pos hd, linesWhen_cons 3 cnt l ls, if_pos hd]
      apply ih
      intro x hx
      apply h
      rw [linesWhen_cons 3 cnt l ls, if_pos hd]
      exact hx
    · have hl2 := linesWhen_cons 2 cnt l ls
      rw [if_neg hd] at hl2
      have hl3 := linesWhen_cons 3 cnt l ls
      rw [if_neg hd] at hl3
      have h3 : ∀ x ∈ linesWhen 3 cnt ls,
          callStackFields.length ≤ (csTokens x).length := by
        intro x hx
        apply h
        rw [hl3]
        by_cases hc : cnt = 3
        · rw [if_pos hc]
          exact List.mem_cons_of_mem l hx
        · rw [if_neg hc]
          exact hx
      rw [parseCallStackAux_cons, if_neg hd]
      by_cases hc3 : cnt = 3
      · subst hc3
        have hlen : callStackFields.length ≤ (csTokens l).length := by
          apply h
          rw [hl3, if_pos rfl]
          exact List.mem_cons_self l _
        have hmk : mkTuple callStackFields (csTokens l) =
            .ok (callStackFields.zip (csTokens l)) := by
          unfold mkTuple
          rw [if_neg (by omega)]
        show (match mkTuple callStackFields (csTokens l) with
          | Except.error e => Except.error e
          | Except.ok r => parseCallStackAux ls 3 summ (stack ++ [r])) = _
        rw [hmk]
        show parseCallStackAux ls 3 summ
          (stack ++ [callStackFields.zip (csTokens l)]) = _
        rw [ih 3 summ (stack ++ [callStackFields.zip (csTokens l)]) h3,
          hl2, hl3, if_neg (by decide : ¬(3 = 2)), if_pos rfl]
        simp [List.append_assoc]
      · by_cases hc2 : cnt = 2
        · subst hc2
          show parseCallStackAux ls 2
            (summ ++ stripSpaceBar l ++ [newlineChar]) stack = _
          rw [ih 2 (summ ++ stripSpaceBar l ++ [newlineChar]) stack h3,
            hl2, hl3, if_pos rfl, if_neg (by decide : ¬(2 = 3))]
          simp [csSummaryOf, List.append_assoc]
        · simp only [if_neg hc2, if_neg hc3]
          rw [ih cnt summ stack h3, hl2, hl3, if_neg hc2, if_neg hc3]

/-- C2 (amended): the summary accumulates, trimmed of spaces and bars and
newline-terminated, exactly the non-delimiter lines seen while the delimiter
counter equals 2, and one frame Record (fields zipped positionally with the
tokens) is built from each non-delimiter line seen while the counter equals
*exactly* 3 — lines seen at counter values 0, 1 or 4 and beyond are
discarded — provided each counter-3 line carries at least as many tokens as
the schema has fields (a line with fewer tokens raises `TypeError`). -/
theorem parseCallStack_summary_and_frames (raw : List (List Char))
    (h : ∀ l ∈ linesWhen 3 0 raw,
        callStackFields.length ≤ (csTokens l).length) :
    parseCallStack raw =
      .ok (csSummaryOf (linesWhen 2 0 raw),
           (linesWhen 3 0 raw).map
             (fun l => callStackFields.zip (csTokens l))) := by
  have := parseCallStackAux_spec raw 0 [] [] h
  simpa [parseCallStack] using this

/-- Witness for `parseCallStack_summary_and_frames`: two delimiters, one
summary line, a third delimiter, one ten-token table line. -/
theorem parseCallStack_summary_and_frames_witness :
    parseCallStack [delim12, delim12, pyStr "sum line", delim12,
        pyStr "a|b|c|d|e|f|g|h|i|j"] =
      .ok (csSummaryOf (linesWhen 2 0 [delim12, delim12, pyStr "sum line",
             delim12, pyStr "a|b|c|d|e|f|g|h|i|j"]),
           (linesWhen 3 0 [delim12, delim12, pyStr "sum line", delim12,
             pyStr "a|b|c|d|e|f|g|h|i|j"]).map
             (fun l => callStackFields.zip (csTokens l))) :=
  parseCallStack_summary_and_frames
    [delim12, delim12, pyStr "sum line", delim12, pyStr "a|b|c|d|e|f|g|h|i|j"]
    (by decide)

/-- C8 counterexample: the specification claims the two literal attribute
lines below produce two Records.  Neither line carries the leading
`digits.digits` ordinal that `DATA_LINE_PATTERN` requires, so neither
matches, no attribute is collected, and the parser returns an empty list. -/
theorem parseNetwork_literal_lines_no_records :
    parseNetworkSection [(pyStr "Network",
        [pyStr "ip_address: 10.0.0.1 10.0.0.2", pyStr "dhcp: yes no"])] =
      .ok [] ∧
    ([] : List Rec) ≠
      [[(pyStr "ip_address", pyStr "10.0.0.1"),
        (pyStr "dhcp", pyStr "yes")],
       [(pyStr "ip_address", pyStr "10.0.0.2"),
        (pyStr "dhcp", pyStr "no")]] := by
  refine ⟨by rfl, by decide⟩

/-- C8 (amended): for a Network section consisting of exactly the two
attribute lines of the specification's example, the parser collects no
attributes (the data-line pattern requires a leading numeric ordinal that
those lines lack) and returns the empty Record list. -/
theorem parseNetwork_literal_lines_eval :
    parseNetworkSection [(pyStr "Network",
        [pyStr "ip_address: 10.0.0.1 10.0.0.2", pyStr "dhcp: yes no"])] =
      .ok [] := by rfl

/-- C10 counterexample: the specification claims that whenever the raw
sections lack some registry section with a non-empty field list (here
everything but Application is absent, in particular Exception), the
constructor raises `SectionNotFound`.  On this input the Application
section parses first and its empty attribute dictionary makes the
namedtuple constructor raise `TypeError`, so construction fails with
`TypeError`, not `SectionNotFound`. -/
theorem parseElfSections_typeerror_first :
    parseElfSections [(pyStr "Application", [])] = .error .typeError ∧
    lookupA [(pyStr "Application", ([] : List (List Char)))]
      (pyStr "Exception") = none ∧
    lookupA [(pyStr "Application", ([] : List (List Char)))]
      (canonicalName (pyStr "Exception")) = none ∧
    ∀ n, PyErr.typeError ≠ PyErr.sectionNotFound n := by
  refine ⟨by rfl, by rfl, by rfl, fun n h => by cases h⟩

theorem parseGeneralSection_missing (fields reserved : List (List Char))
    (raw : RawSections) (name : List Char) (hf : fields ≠ [])
    (h1 : lookupA raw name = none)
    (h2 : lookupA raw (canonicalName name) = none) :
    parseGeneralSection fields reserved raw name =
      .error (.sectionNotFound (canonicalName name)) := by
  unfold parseGeneralSection
  rw [if_neg hf, getSection_absent raw name h1 h2]
  rfl

theorem parseTableSection_missing (fields : List (List Char))
    (raw : RawSections) (name : List Char)
    (h1 : lookupA raw name = none)
    (h2 : lookupA raw (canonicalName name) = none) :
    parseTableSection fields raw name =
      .error (.sectionNotFound (canonicalName name)) := by
  unfold parseTableSection
  rw [getSection_absent raw name h1 h2]
  rfl

theorem parseNetworkSection_missing (raw : RawSections)
    (h1 : lookupA raw (pyStr "Network") = none)
    (h2 : lookupA raw (canonicalName (pyStr "Network")) = none) :
    parseNetworkSection raw =
      .error (.sectionNotFound (canonicalName (pyStr "Network"))) := by
  unfold parseNetworkSection
  rw [getSection_absent raw (pyStr "Network") h1 h2]
  rfl

theorem parseCallStackSection_missing (raw : RawSections)
    (h1 : lookupA raw (pyStr "Call Stack Information") = none)
    (h2 : lookupA raw (canonicalName (pyStr "Call Stack Information")) =
      none) :
    parseCallStackSection raw =
      .error (.sectionNotFound
        (canonicalName (pyStr "Call Stack Information"))) := by
  unfold parseCallStackSection
  rw [getSection_absent raw (pyStr "Call Stack Information") h1 h2]
  rfl

/-- A registry entry whose parser consults a non-empty field list fails with
`SectionNotFound` when its section is absent in both name forms. -/
theorem runSecParser_missing (raw : RawSections) (en : List Char × SecParser)
    (hmem : en ∈ registry) (hf : secFieldsOf en ≠ [])
    (h1 : lookupA raw en.1 = none)
    (h2 : lookupA raw (canonicalName en.1) = none) :
    runSecParser raw en = .error (.sectionNotFound (canonicalName en.1)) := by
  simp only [registry, List.mem_cons, List.not_mem_nil, or_false] at hmem
  rcases hmem with h | h | h | h | h | h | h | h | h | h | h | h <;> subst h
  · rw [show runSecParser raw (pyStr "Application", .general appFields []) =
        (parseGeneralSection appFields [] raw (pyStr "Application")).map
          SecVal.rec1 from rfl,
      parseGeneralSection_missing appFields [] raw (pyStr "Application")
        (by decide) h1 h2]
    rfl
  · rw [show runSecParser raw
        (pyStr "Exception", .general excFields [pyStr "type", pyStr "id"]) =
        (parseGeneralSection excFields [pyStr "type", pyStr "id"] raw
          (pyStr "Exception")).map SecVal.rec1 from rfl,
      parseGeneralSection_missing excFields [pyStr "type", pyStr "id"] raw
        (pyStr "Exception") (by decide) h1 h2]
    rfl
  · rw [show runSecParser raw (pyStr "User", .general userFields [pyStr "id"]) =
        (parseGeneralSection userFields [pyStr "id"] raw (pyStr "User")).map
          SecVal.rec1 from rfl,
      parseGeneralSection_missing userFields [pyStr "id"] raw (pyStr "User")
        (by decide) h1 h2]
    rfl
  · rw [show runSecParser raw (pyStr "Active Controls", .general acFields []) =
        (parseGeneralSection acFields [] raw (pyStr "Active Controls")).map
          SecVal.rec1 from rfl,
      parseGeneralSection_missing acFields [] raw (pyStr "Active Controls")
        (by decide) h1 h2]
    rfl
  · rw [show runSecParser raw (pyStr "Computer", .general compFields []) =
        (parseGeneralSection compFields [] raw (pyStr "Computer")).map
          SecVal.rec1 from rfl,
      parseGeneralSection_missing compFields [] raw (pyStr "Computer")
        (by decide) h1 h2]
    rfl
  · rw [show runSecParser raw
        (pyStr "Operating System", .general osFields [pyStr "type"]) =
        (parseGeneralSection osFields [pyStr "type"] raw
          (pyStr "Operating System")).map SecVal.rec1 from rfl,
      parseGeneralSection_missing osFields [pyStr "type"] raw
        (pyStr "Operating System") (by decide) h1 h2]
    rfl
  · rw [show runSecParser raw (pyStr "Network", SecParser.network) =
        (parseNetworkSection raw).map SecVal.recs from rfl,
      parseNetworkSection_missing raw h1 h2]
    rfl
  · rw [show runSecParser raw
        (pyStr "Call Stack Information", SecParser.callstack) =
        (parseCallStackSection raw).map (fun p => SecVal.cs p.1 p.2) from rfl,
      parseCallStackSection_missing raw h1 h2]
    rfl
  · rw [show runSecParser raw
        (pyStr "Modules Information", .table modulesFields) =
        (parseTableSection modulesFields raw (pyStr "Modules Information")).map
          SecVal.recs from rfl,
      parseTableSection_missing modulesFields raw (pyStr "Modules Information")
        h1 h2]
    rfl
  · rw [show runSecParser raw
        (pyStr "Processes Information", .table processesFields) =
        (parseTableSection processesFields raw
          (pyStr "Processes Information")).map SecVal.recs from rfl,
      parseTableSection_missing processesFields raw
        (pyStr "Processes Information") h1 h2]
    rfl
  · exact absurd rfl hf
  · exact absurd rfl hf

/-- If some registry entry's parser fails, the whole section-parsing fold
fails. -/
theorem foldlM_elfStep_error (raw : RawSections) :
    ∀ (entries : List (List Char × SecParser))
      (acc : List (List Char × SecVal)),
    (∃ en ∈ entries, ∃ e, runSecParser raw en = .error e) →
    ∃ e, entries.foldlM (elfStep raw) acc = .error e := by
  intro entries
  induction entries with
  | nil =>
    rintro acc ⟨en, hmem, _⟩
    cases hmem
  | cons en0 rest ih =>
    rintro acc ⟨en, hmem, e, herr⟩
    rw [List.foldlM_cons]
    cases hmem with
    | head =>
      refine ⟨e, ?_⟩
      rw [show elfStep raw acc en0 = .error e by
        unfold elfStep
        rw [herr]
        rfl]
      rfl
    | tail _ hmem2 =>
      cases hrun : runSecParser raw en0 with
      | error e0 =>
        refine ⟨e0, ?_⟩
        rw [show elfStep raw acc en0 = .error e0 by
          unfold elfStep
          rw [hrun]
          rfl]
        rfl
      | ok v =>
        have hstep : elfStep raw acc en0 =
            .ok (dictInsert acc (canonicalName en0.1) v) := by
          unfold elfStep
          rw [hrun]
          rfl
        rw [hstep]
        exact ih (dictInsert acc (canonicalName en0.1) v) ⟨en, hmem2, e, herr⟩

/-- C10 (amended): whenever the segmented raw sections lack — in both the
literal and the canonical name form — some registry section whose parser
consults a non-empty field list, `_parse_elf_sections` (and hence the
constructor) raises an exception instead of producing a parsed log.  The
exception is `SectionNotFound` when the missing section is the first
failure in registry order, but an earlier section may fail first with a
different exception (see the counterexample's `TypeError`). -/
theorem parseElfSections_missing_section_fails (raw : RawSections)
    (h : ∃ en ∈ registry, secFieldsOf en ≠ [] ∧ lookupA raw en.1 = none ∧
      lookupA raw (canonicalName en.1) = none) :
    ∃ e, parseElfSections raw = .error e := by
  obtain ⟨en, hmem, hf, h1, h2⟩ := h
  unfold parseElfSections
  exact foldlM_elfStep_error raw registry []
    ⟨en, hmem, _, runSecParser_missing raw en hmem hf h1 h2⟩

/-- Witness for `parseElfSections_missing_section_fails`: an input with no
sections at all (in particular no Exception section) cannot be parsed. -/
theorem parseElfSections_missing_section_fails_witness :
    ∃ e, parseElfSections [] = .error e :=
  parseElfSections_missing_section_fails []
    ⟨(pyStr "Exception", .general excFields [pyStr "type", pyStr "id"]),
      by decide, by decide, rfl, rfl⟩

end CBR
